import Mathlib

/-!
Verification of the embedded-JPEG locator and extraction pipeline of
arwtojpg (src/main.rs), as a shallow embedding over byte buffers
modelled as lists of natural numbers.

Rust slice indexing is bounds checked and aborts with a panic when an
index is out of range; reads are therefore modelled as Option-valued
accesses, and a failed read is recorded as the distinguished
LocErr.boundsPanic outcome, kept apart from the structured errors the
source produces through its ensure macros.  The while loop over the
IFD chain in the source has no termination guarantee, so it is
embedded with an explicit fuel parameter; a fuelOut result means the
loop has not finished within the given number of iterations.
-/

namespace ArwToJpg

/-- The struct EmbeddedJpegInfo of main.rs: offset and length of an
embedded JPEG region, in bytes. -/
structure EmbeddedJpegInfo where
  offset : Nat
  length : Nat
deriving DecidableEq

/-- Failure modes of find_largest_embedded_jpeg.  boundsPanic models a
Rust slice-index bounds panic; the other three correspond to the three
ensure failures of the source ("Not a valid TIFF file", "No JPEG data
found", "JPEG data exceeds file size"). -/
inductive LocErr where
  | boundsPanic
  | invalidContainer
  | noJpegFound
  | outOfBounds
deriving DecidableEq

/-- read_u16 of main.rs at absolute offset i: two bytes combined per
the endianness flag; none when either byte is outside the buffer
(a Rust slice-index panic). -/
def readU16 (buf : List Nat) (i : Nat) (isLe : Bool) : Option Nat :=
  match buf.get? i, buf.get? (i+1) with
  | some b0, some b1 => some (if isLe then b0 + 256 * b1 else 256 * b0 + b1)
  | _, _ => none

/-- read_u32 of main.rs at absolute offset i. -/
def readU32 (buf : List Nat) (i : Nat) (isLe : Bool) : Option Nat :=
  match buf.get? i, buf.get? (i+1), buf.get? (i+2), buf.get? (i+3) with
  | some b0, some b1, some b2, some b3 =>
      some (if isLe then b0 + 256 * b1 + 65536 * b2 + 16777216 * b3
            else 16777216 * b0 + 65536 * b1 + 256 * b2 + b3)
  | _, _, _, _ => none

/-- TIFF_MAGIC_LE, the bytes of "II*\0". -/
def tiffMagicLE : List Nat := [73, 73, 42, 0]

/-- TIFF_MAGIC_BE, the bytes of "MM\0*". -/
def tiffMagicBE : List Nat := [77, 77, 0, 42]

/-- Lines 76-81 of main.rs: the slice raw_buf[0..4] panics when the
buffer is shorter than 4 bytes; otherwise the magic is compared
against the two recognized sequences and the endianness flag is
derived, with the ensure failing ("Not a valid TIFF file") when
neither matches. -/
def parseMagic (buf : List Nat) : LocErr ⊕ Bool :=
  if buf.length < 4 then .inl .boundsPanic
  else if buf.take 4 = tiffMagicLE then .inr true
  else if buf.take 4 = tiffMagicBE then .inr false
  else .inl .invalidContainer

/-- The for-loop over IFD entries, lines 97-113 of main.rs.  e is the
absolute offset of the next entry, the first Nat argument the number
of entries still to scan, co and cl the captured JPEGInterchangeFormat
(tag 0x201) and JPEGInterchangeFormatLength (tag 0x202) values.  The
loop breaks as soon as both are captured; otherwise the cursor
advances by 12 bytes, which panics when fewer than 12 bytes remain. -/
def scanEntries (buf : List Nat) (isLe : Bool) :
    Nat → Nat → Option Nat → Option Nat → Except Unit (Option Nat × Option Nat)
  | 0, _, co, cl => .ok (co, cl)
  | n+1, e, co, cl =>
    match readU16 buf e isLe with
    | none => .error ()
    | some tag =>
      let upd : Except Unit (Option Nat × Option Nat) :=
        if tag = 0x201 then
          match readU32 buf (e+8) isLe with
          | none => .error ()
          | some v => .ok (some v, cl)
        else if tag = 0x202 then
          match readU32 buf (e+8) isLe with
          | none => .error ()
          | some v => .ok (co, some v)
        else .ok (co, cl)
      match upd with
      | .error _ => .error ()
      | .ok (co2, cl2) =>
        if co2.isSome && cl2.isSome then .ok (co2, cl2)
        else if e + 12 ≤ buf.length then scanEntries buf isLe n (e+12) co2 cl2
        else .error ()

/-- State of the while loop of lines 89-123: the pending IFD offset
and the best candidate so far (largest_jpeg). -/
structure WalkState where
  nextOff : Nat
  best : EmbeddedJpegInfo
deriving DecidableEq

/-- Outcome of one iteration of the while loop. -/
inductive StepRes where
  | cont (s : WalkState)
  | done (best : EmbeddedJpegInfo)
  | panicked
deriving DecidableEq

/-- One iteration of the while loop of lines 89-123 of main.rs: read
the 2-byte entry count at the IFD offset, scan the entries, replace
the best candidate when this IFD yielded both tags with a strictly
larger length, then read the 4-byte next-IFD offset stored after the
full entry array. -/
def walkStep (buf : List Nat) (isLe : Bool) (s : WalkState) : StepRes :=
  if s.nextOff = 0 then .done s.best
  else
    match readU16 buf s.nextOff isLe with
    | none => .panicked
    | some n =>
      match scanEntries buf isLe n (s.nextOff + 2) none none with
      | .error _ => .panicked
      | .ok (co, cl) =>
        let best2 : EmbeddedJpegInfo :=
          match co, cl with
          | some o, some l => if s.best.length < l then ⟨o, l⟩ else s.best
          | _, _ => s.best
        match readU32 buf (s.nextOff + 2 + 12 * n) isLe with
        | none => .panicked
        | some nxt => .cont ⟨nxt, best2⟩

/-- Result of running the while loop with a fuel bound. -/
inductive WalkRes where
  | ok (best : EmbeddedJpegInfo)
  | panicked
  | fuelOut
deriving DecidableEq

/-- The while loop of lines 89-123, iterated at most fuel times. -/
def runWalk (buf : List Nat) (isLe : Bool) : Nat → WalkState → WalkRes
  | 0, _ => .fuelOut
  | fuel+1, s =>
    match walkStep buf isLe s with
    | .done b => .ok b
    | .panicked => .panicked
    | .cont s2 => runWalk buf isLe fuel s2

/-- Overall result of find_largest_embedded_jpeg under a fuel bound. -/
inductive FindRes where
  | found (info : EmbeddedJpegInfo)
  | failed (e : LocErr)
  | fuelOut
deriving DecidableEq

/-- Lines 125-134 of main.rs: after the chain walk, fail with "No JPEG
data found" unless both offset and length are nonzero, fail with "JPEG
data exceeds file size" unless offset + length fits in the buffer, and
otherwise return the best candidate. -/
def finalize (buf : List Nat) (best : EmbeddedJpegInfo) : FindRes :=
  if best.offset = 0 ∨ best.length = 0 then .failed .noJpegFound
  else if buf.length < best.offset + best.length then .failed .outOfBounds
  else .found best

/-- find_largest_embedded_jpeg of main.rs (lines 71-135): magic check,
first-IFD offset read at byte 4, chain walk, final validations. -/
def findLargestEmbeddedJpeg (buf : List Nat) (fuel : Nat) : FindRes :=
  match parseMagic buf with
  | .inl e => .failed e
  | .inr isLe =>
    match readU32 buf 4 isLe with
    | none => .failed .boundsPanic
    | some first =>
      match runWalk buf isLe fuel ⟨first, ⟨0, 0⟩⟩ with
      | .fuelOut => .fuelOut
      | .panicked => .failed .boundsPanic
      | .ok best => finalize buf best


/-- Success or failure of the OS advisory-hint calls issued by
extract_jpeg (lines 140-148 of main.rs): posix_fadvise WILLNEED,
advise_range WillNeed, advise_range PopulateRead, in that order.  A
false field means the corresponding call fails. -/
structure HintPlan where
  fadviseWillNeed : Bool
  adviseWillNeed : Bool
  advisePopulate : Bool
deriving DecidableEq

/-- Per-file error of the extraction pipeline: either a locator error
or a failure of one of the advisory-hint calls (which the source
propagates with the question-mark operator). -/
inductive FileErr where
  | locate (e : LocErr)
  | hintFailure
deriving DecidableEq

/-- Result of extract_jpeg under a fuel bound. -/
inductive ExtractRes where
  | ok (bytes : List Nat)
  | err (e : FileErr)
  | fuelOut
deriving DecidableEq

/-- mmap_raw of main.rs (lines 36-44): posix_fadvise POSIX_FADV_RANDOM
followed by advise Random, each propagating its failure with the
question-mark operator.  The arguments record whether each hint call
succeeds; the mapping itself is modelled as always succeeding. -/
def mmapRaw (fadviseRandomOk adviseRandomOk : Bool) : Except FileErr Unit :=
  if fadviseRandomOk then
    if adviseRandomOk then .ok ()
    else .error .hintFailure
  else .error .hintFailure

/-- extract_jpeg of main.rs (lines 137-151): locate the largest
embedded JPEG, issue the three post-location advisory hints (each
propagating failure), then return the slice
raw_buf[offset..offset+length], which is in bounds because of the
final ensure of the locator. -/
def extractJpeg (hints : HintPlan) (buf : List Nat) (fuel : Nat) : ExtractRes :=
  match findLargestEmbeddedJpeg buf fuel with
  | .fuelOut => .fuelOut
  | .failed e => .err (.locate e)
  | .found info =>
    if hints.fadviseWillNeed then
      if hints.adviseWillNeed then
        if hints.advisePopulate then .ok ((buf.drop info.offset).take info.length)
        else .err .hintFailure
      else .err .hintFailure
    else .err .hintFailure

/-- The default extension list of process_directory (lines 177-180 of
main.rs).  Extensions are modelled as lists of characters (Rust
OsString values). -/
def defaultExtensions : List (List Char) :=
  [['a','r','w'], ['c','r','2'], ['c','r','w'], ['d','n','g'], ['e','r','f'],
   ['k','d','c'], ['m','e','f'], ['m','r','w'], ['n','e','f'], ['n','r','w'],
   ['o','r','f'], ['p','e','f'], ['r','a','f'], ['r','a','w'], ['r','w','2'],
   ['r','w','l'], ['s','r','2'], ['s','r','f'], ['s','r','w'], ['x','3','f']]

/-- to_uppercase applied to an extension (all defaults are ASCII, so
per-character uppercasing matches the Rust to_uppercase). -/
def upperExt (e : List Char) : List Char := e.map Char.toUpper

/-- The valid_extensions set of process_directory (lines 177-184): for
each default extension both the extension itself and its uppercased
form, plus the optional caller-supplied extension, matched exactly. -/
def validExtensions (extra : Option (List Char)) : List (List Char) :=
  (defaultExtensions.flatMap fun e => [e, upperExt e]) ++ extra.toList

/-- The selection test of lines 197-199 of main.rs: a file is selected
when it has an extension and that extension is contained, by exact
equality, in the valid_extensions set. -/
def extensionSelected (extra : Option (List Char)) (ext : Option (List Char)) : Bool :=
  match ext with
  | none => false
  | some e => (validExtensions extra).contains e

/-- Little-endian TIFF buffer, 38 bytes: one IFD at offset 8 with two
entries, tag 0x201 with value 30 and tag 0x202 with value 4, next-IFD
offset 0.  The located region 30..34 holds the bytes 4, 0, 0, 0. -/
def okBuf : List Nat :=
  [73, 73, 42, 0,  8, 0, 0, 0,
   2, 0,
   1, 2, 0, 0, 0, 0, 0, 0, 30, 0, 0, 0,
   2, 2, 0, 0, 0, 0, 0, 0, 4, 0, 0, 0,
   0, 0, 0, 0]

/-- Like okBuf but the captured JPEG offset value is 0 (length 5). -/
def zeroOffBuf : List Nat :=
  [73, 73, 42, 0,  8, 0, 0, 0,
   2, 0,
   1, 2, 0, 0, 0, 0, 0, 0, 0, 0, 0, 0,
   2, 2, 0, 0, 0, 0, 0, 0, 5, 0, 0, 0,
   0, 0, 0, 0]

/-- Like okBuf but the captured JPEG length value is 50, so that
offset 30 + length 50 exceeds the 38-byte buffer. -/
def oobBuf : List Nat :=
  [73, 73, 42, 0,  8, 0, 0, 0,
   2, 0,
   1, 2, 0, 0, 0, 0, 0, 0, 30, 0, 0, 0,
   2, 2, 0, 0, 0, 0, 0, 0, 50, 0, 0, 0,
   0, 0, 0, 0]

/-- Little-endian TIFF buffer, 80 bytes, with two linked IFDs: the
IFD at offset 8 declares a JPEG at offset 70 with length 3 and links
to the IFD at offset 40, which declares a JPEG at offset 74 with
length 6 and terminates the chain. -/
def twoIfdBuf : List Nat :=
  [73, 73, 42, 0,  8, 0, 0, 0,
   2, 0,
   1, 2, 0, 0, 0, 0, 0, 0, 70, 0, 0, 0,
   2, 2, 0, 0, 0, 0, 0, 0, 3, 0, 0, 0,
   40, 0, 0, 0,
   0, 0,
   2, 0,
   1, 2, 0, 0, 0, 0, 0, 0, 74, 0, 0, 0,
   2, 2, 0, 0, 0, 0, 0, 0, 6, 0, 0, 0,
   0, 0, 0, 0,
   0, 0, 0, 0, 0, 0, 0, 0, 0, 0]

/-- Bare IFD entry array (no TIFF header), little endian, three
entries: tag 0x201 with value 10, tag 0x201 again with value 20, and
tag 0x202 with value 5. -/
def dupBuf : List Nat :=
  [1, 2, 0, 0, 0, 0, 0, 0, 10, 0, 0, 0,
   1, 2, 0, 0, 0, 0, 0, 0, 20, 0, 0, 0,
   2, 2, 0, 0, 0, 0, 0, 0, 5, 0, 0, 0]

/-- Little-endian TIFF buffer whose single IFD (offset 8, zero
entries) stores 8 as its next-IFD offset, so the chain points back to
itself forever. -/
def cyclicBuf : List Nat :=
  [73, 73, 42, 0,  8, 0, 0, 0,  0, 0,  8, 0, 0, 0]

/-- Little-endian TIFF buffer whose first-IFD offset, 100, lies far
beyond the 8-byte buffer. -/
def shortOffBuf : List Nat := [73, 73, 42, 0, 100, 0, 0, 0]


/-- Reads n consecutive 12-byte IFD entries starting at absolute
offset e, returning the (tag, value-at-sub-offset-8) pairs; none when
any of the reads would fall outside the buffer. -/
def readEntries (buf : List Nat) (isLe : Bool) : Nat → Nat → Option (List (Nat × Nat))
  | 0, _ => some []
  | n+1, e =>
    match readU16 buf e isLe, readU32 buf (e+8) isLe with
    | some t, some v =>
      match readEntries buf isLe n (e+12) with
      | some rest => some ((t, v) :: rest)
      | none => none
    | _, _ => none

/-- The entry loop of lines 97-113 rephrased over an abstract list of
(tag, value) pairs: capture tag 0x201 into the first component and tag
0x202 into the second, breaking as soon as both are captured. -/
def scanList : List (Nat × Nat) → Option Nat → Option Nat → Option Nat × Option Nat
  | [], co, cl => (co, cl)
  | (t, v) :: rest, co, cl =>
    let co2 := if t = 0x201 then some v else co
    let cl2 := if t = 0x202 then some v else cl
    if co2.isSome && cl2.isSome then (co2, cl2) else scanList rest co2 cl2

/-- The capture update performed for a single entry, without the
break: tag 0x201 overwrites the offset capture, tag 0x202 overwrites
the length capture. -/
def stepAcc (s : Option Nat × Option Nat) (p : Nat × Nat) : Option Nat × Option Nat :=
  (if p.1 = 0x201 then some p.2 else s.1, if p.1 = 0x202 then some p.2 else s.2)

/-- Capture state after processing a whole entry list without the
break. -/
def foldAcc (es : List (Nat × Nat)) (s : Option Nat × Option Nat) : Option Nat × Option Nat :=
  es.foldl stepAcc s

/-- Whether both tags have been captured after processing the whole
entry list from the given starting captures. -/
def completeAfter (es : List (Nat × Nat)) (co cl : Option Nat) : Bool :=
  (foldAcc es (co, cl)).1.isSome && (foldAcc es (co, cl)).2.isSome

/-- The value of the last entry with the given tag in the list, if
any. -/
def lastVal (t : Nat) (es : List (Nat × Nat)) : Option Nat :=
  es.foldl (fun acc p => if p.1 = t then some p.2 else acc) none

/-- The next-IFD offset one iteration of the while loop would compute
from the given IFD offset: entry count, entry scan, then the 4-byte
read after the entry array.  none when any read panics. -/
def stepNext (buf : List Nat) (isLe : Bool) (off : Nat) : Option Nat :=
  match readU16 buf off isLe with
  | none => none
  | some n =>
    match scanEntries buf isLe n (off + 2) none none with
    | .error _ => none
    | .ok _ => readU32 buf (off + 2 + 12 * n) isLe

/-- The candidate an IFD at the given offset contributes: the captured
offset/length pair when the entry scan captures both tags. -/
def candAt (buf : List Nat) (isLe : Bool) (off : Nat) : Option EmbeddedJpegInfo :=
  match readU16 buf off isLe with
  | none => none
  | some n =>
    match scanEntries buf isLe n (off + 2) none none with
    | .error _ => none
    | .ok (some o, some l) => some ⟨o, l⟩
    | .ok _ => none

/-- The best-so-far update of lines 115-119: a candidate replaces the
best exactly when its length is strictly larger. -/
def updBest (b : EmbeddedJpegInfo) : Option EmbeddedJpegInfo → EmbeddedJpegInfo
  | some c => if b.length < c.length then c else b
  | none => b

/-- Best candidate after walking the listed IFD offsets in order. -/
def chainBest (buf : List Nat) (isLe : Bool) (offs : List Nat) (b : EmbeddedJpegInfo) :
    EmbeddedJpegInfo :=
  offs.foldl (fun b off => updBest b (candAt buf isLe off)) b

/-- Best-so-far fold over a plain candidate list. -/
def bestFold (b : EmbeddedJpegInfo) (cs : List EmbeddedJpegInfo) : EmbeddedJpegInfo :=
  cs.foldl (fun b c => updBest b (some c)) b

/-- A terminating IFD chain: the offsets the while loop visits, in
order, each nonzero, each stepping to the next via stepNext, with the
last one stepping to 0. -/
inductive Chain (buf : List Nat) (isLe : Bool) : Nat → List Nat → Prop
  | nil : Chain buf isLe 0 []
  | cons {off nxt : Nat} {rest : List Nat} :
      off ≠ 0 → stepNext buf isLe off = some nxt →
      Chain buf isLe nxt rest → Chain buf isLe off (off :: rest)

/-- The locator loops forever on this buffer: no amount of fuel makes
the while loop finish. -/
def Diverges (buf : List Nat) : Prop :=
  ∀ fuel, findLargestEmbeddedJpeg buf fuel = .fuelOut

theorem get?_some_bound {l : List Nat} {i b : Nat} (h : l.get? i = some b) :
    i < l.length := by
  by_contra hc
  push_neg at hc
  rw [List.get?_eq_none.mpr hc] at h
  exact Option.noConfusion h

theorem readU16_bound {buf : List Nat} {i : Nat} {isLe : Bool} {x : Nat}
    (h : readU16 buf i isLe = some x) : i + 2 ≤ buf.length := by
  unfold readU16 at h
  cases h1 : buf.get? i with
  | none => rw [h1] at h; exact absurd h (by simp)
  | some b0 =>
    cases h2 : buf.get? (i+1) with
    | none => rw [h1, h2] at h; exact absurd h (by simp)
    | some b1 => have := get?_some_bound h2; omega

theorem readU32_bound {buf : List Nat} {i : Nat} {isLe : Bool} {x : Nat}
    (h : readU32 buf i isLe = some x) : i + 4 ≤ buf.length := by
  unfold readU32 at h
  cases h1 : buf.get? i <;> rw [h1] at h <;>
    [exact absurd h (by simp); skip]
  cases h2 : buf.get? (i+1) <;> rw [h2] at h <;>
    [exact absurd h (by simp); skip]
  cases h3 : buf.get? (i+2) <;> rw [h3] at h <;>
    [exact absurd h (by simp); skip]
  cases h4 : buf.get? (i+3) <;> rw [h4] at h <;>
    [exact absurd h (by simp); skip]
  have := get?_some_bound h4; omega

theorem scanEntries_eq_scanList {buf : List Nat} {isLe : Bool} :
    ∀ {n e : Nat} {es : List (Nat × Nat)} (co cl : Option Nat),
      readEntries buf isLe n e = some es →
      scanEntries buf isLe n e co cl = .ok (scanList es co cl) := by
  intro n
  induction n with
  | zero =>
    intro e es co cl h
    simp only [readEntries, Option.some.injEq] at h
    subst h
    simp [scanEntries, scanList]
  | succ n ih =>
    intro e es co cl h
    simp only [readEntries] at h
    cases h1 : readU16 buf e isLe <;> rw [h1] at h <;>
      [exact absurd h (by simp); skip]
    rename_i t
    cases h2 : readU32 buf (e+8) isLe <;> rw [h2] at h <;>
      [exact absurd h (by simp); skip]
    rename_i v
    cases h3 : readEntries buf isLe n (e+12) <;> rw [h3] at h <;>
      [exact absurd h (by simp); skip]
    rename_i rest
    simp only [Option.some.injEq] at h
    subst h
    have hle : e + 12 ≤ buf.length := by have := readU32_bound h2; omega
    simp only [scanEntries, h1, h2, scanList]
    by_cases ht1 : t = 0x201
    · subst ht1
      simp only [if_pos rfl, if_neg (by decide : ¬ (0x201 : Nat) = 0x202)]
      by_cases hb : (some v).isSome && cl.isSome
      · simp only [hb, if_pos rfl, if_true]
      · simp only [hb, if_false, Bool.false_eq_true, if_neg, hle, if_pos]
        exact ih _ _ h3
    · by_cases ht2 : t = 0x202
      · subst ht2
        simp only [if_neg ht1, if_pos rfl]
        by_cases hb : co.isSome && (some v).isSome
        · simp only [hb, if_true]
        · simp only [hb, Bool.false_eq_true, if_false, hle, if_pos]
          exact ih _ _ h3
      · simp only [if_neg ht1, if_neg ht2]
        by_cases hb : co.isSome && cl.isSome
        · simp only [hb, if_true]
        · simp only [hb, Bool.false_eq_true, if_false, hle, if_pos]
          exact ih _ _ h3

theorem stepAcc_keeps_some {s : Option Nat × Option Nat} {p : Nat × Nat}
    (h : (s.1.isSome && s.2.isSome) = true) :
    ((stepAcc s p).1.isSome && (stepAcc s p).2.isSome) = true := by
  simp only [stepAcc]
  simp only [Bool.and_eq_true] at h ⊢
  constructor
  · split <;> simp [h.1]
  · split <;> simp [h.2]

theorem completeAfter_of_bothSome :
    ∀ (es : List (Nat × Nat)) (co cl : Option Nat),
      (co.isSome && cl.isSome) = true → completeAfter es co cl = true := by
  intro es
  induction es with
  | nil => intro co cl h; simpa [completeAfter, foldAcc] using h
  | cons p rest ih =>
    intro co cl h
    have h2 := stepAcc_keeps_some (s := (co, cl)) (p := p) h
    have h3 := ih (stepAcc (co, cl) p).1 (stepAcc (co, cl) p).2 h2
    simpa [completeAfter, foldAcc, List.foldl_cons] using h3

theorem scanList_complete :
    ∀ (es : List (Nat × Nat)) (k : Nat) (co cl : Option Nat),
      (co.isSome && cl.isSome) = false →
      k < es.length →
      completeAfter (es.take (k+1)) co cl = true →
      completeAfter (es.take k) co cl = false →
      scanList es co cl = foldAcc (es.take (k+1)) (co, cl) := by
  intro es
  induction es with
  | nil => intro k co cl _ hk; exact absurd hk (by simp)
  | cons p rest ih =>
    intro k co cl h0 hk h1 h2
    obtain ⟨t, v⟩ := p
    match k with
    | 0 =>
      simp only [List.take_succ_cons, List.take_zero] at h1
      simp only [completeAfter, foldAcc, List.foldl_cons, List.foldl_nil, stepAcc] at h1
      simp only [scanList, foldAcc, completeAfter, List.take_succ_cons, List.take_zero,
        List.foldl_cons, List.foldl_nil, stepAcc]
      rw [if_pos h1]
    | k+1 =>
      simp only [List.take_succ_cons] at h1 h2
      simp only [completeAfter, foldAcc, List.foldl_cons] at h1 h2
      have hb : ((stepAcc (co, cl) (t, v)).1.isSome && (stepAcc (co, cl) (t, v)).2.isSome) = false := by
        by_contra hc
        have hc2 : ((stepAcc (co, cl) (t, v)).1.isSome && (stepAcc (co, cl) (t, v)).2.isSome) = true := by
          revert hc; cases ((stepAcc (co, cl) (t, v)).1.isSome && (stepAcc (co, cl) (t, v)).2.isSome) <;> simp
        have := completeAfter_of_bothSome (rest.take k) _ _ hc2
        simp only [completeAfter, foldAcc, Prod.mk.eta] at this
        rw [this] at h2
        exact Bool.noConfusion h2
      have hk2 : k < rest.length := by simpa using hk
      have h1b : completeAfter (rest.take (k+1)) (stepAcc (co, cl) (t, v)).1 (stepAcc (co, cl) (t, v)).2 = true := by
        simpa [completeAfter, foldAcc, Prod.mk.eta] using h1
      have h2b : completeAfter (rest.take k) (stepAcc (co, cl) (t, v)).1 (stepAcc (co, cl) (t, v)).2 = false := by
        simpa [completeAfter, foldAcc, Prod.mk.eta] using h2
      have := ih k (stepAcc (co, cl) (t, v)).1 (stepAcc (co, cl) (t, v)).2 hb hk2 h1b h2b
      simp only [scanList, stepAcc] at this ⊢
      rw [if_neg (by simpa [stepAcc] using hb)]
      simp only [List.take_succ_cons, foldAcc, List.foldl_cons]
      simpa [stepAcc, foldAcc] using this

theorem foldAcc_pair :
    ∀ (es : List (Nat × Nat)) (co cl : Option Nat),
      foldAcc es (co, cl) =
        (es.foldl (fun acc p => if p.1 = 0x201 then some p.2 else acc) co,
         es.foldl (fun acc p => if p.1 = 0x202 then some p.2 else acc) cl) := by
  intro es
  induction es with
  | nil => intro co cl; simp [foldAcc]
  | cons p rest ih =>
    intro co cl
    simp only [foldAcc, List.foldl_cons] at ih ⊢
    rw [show stepAcc (co, cl) p =
        ((if p.1 = 0x201 then some p.2 else co), (if p.1 = 0x202 then some p.2 else cl)) from rfl]
    exact ih _ _

theorem walkStep_cont_of_stepNext {buf : List Nat} {isLe : Bool} {off nxt : Nat}
    (b : EmbeddedJpegInfo) (h0 : off ≠ 0) (h : stepNext buf isLe off = some nxt) :
    walkStep buf isLe ⟨off, b⟩ = .cont ⟨nxt, updBest b (candAt buf isLe off)⟩ := by
  unfold stepNext at h
  cases h1 : readU16 buf off isLe
  · simp [h1] at h
  rename_i n
  simp only [h1] at h
  cases h2 : scanEntries buf isLe n (off + 2) none none
  · simp [h2] at h
  rename_i pr
  simp only [h2] at h
  obtain ⟨co, cl⟩ := pr
  simp only [walkStep, candAt, h0, if_false, h1, h2, h]
  cases co <;> cases cl <;> simp [updBest]

theorem runWalk_chain {buf : List Nat} {isLe : Bool} :
    ∀ {off : Nat} {offs : List Nat}, Chain buf isLe off offs →
      ∀ (b : EmbeddedJpegInfo) (fuel : Nat), offs.length < fuel →
        runWalk buf isLe fuel ⟨off, b⟩ = .ok (chainBest buf isLe offs b) := by
  intro off offs hch
  induction hch with
  | nil =>
    intro b fuel hf
    obtain ⟨m, rfl⟩ : ∃ m, fuel = m + 1 := ⟨fuel - 1, by omega⟩
    simp [runWalk, walkStep, chainBest]
  | @cons off2 nxt rest h0 hstep hc ih =>
    intro b fuel hf
    obtain ⟨m, rfl⟩ : ∃ m, fuel = m + 1 := ⟨fuel - 1, by omega⟩
    have hws := walkStep_cont_of_stepNext b h0 hstep
    simp only [runWalk, hws]
    have hlt : rest.length < m := by
      simp only [List.length_cons] at hf; omega
    rw [ih _ m hlt]
    simp [chainBest, List.foldl_cons]

theorem length_le_updBest (b : EmbeddedJpegInfo) (c : Option EmbeddedJpegInfo) :
    b.length ≤ (updBest b c).length := by
  cases c with
  | none => simp [updBest]
  | some c => simp only [updBest]; split <;> omega

theorem length_le_bestFold :
    ∀ (cs : List EmbeddedJpegInfo) (b : EmbeddedJpegInfo),
      b.length ≤ (bestFold b cs).length := by
  intro cs
  induction cs with
  | nil => intro b; simp [bestFold]
  | cons c cs ih =>
    intro b
    have h1 := length_le_updBest b (some c)
    have h2 := ih (updBest b (some c))
    simp only [bestFold, List.foldl_cons] at h2 ⊢
    omega

theorem bestFold_mem_le :
    ∀ (cs : List EmbeddedJpegInfo) (b c : EmbeddedJpegInfo),
      c ∈ cs → c.length ≤ (bestFold b cs).length := by
  intro cs
  induction cs with
  | nil => intro b c hc; exact absurd hc (by simp)
  | cons c0 cs ih =>
    intro b c hc
    rcases List.mem_cons.mp hc with hne | hmem
    · subst hne
      have h1 : c.length ≤ (updBest b (some c)).length := by
        simp only [updBest]; split <;> omega
      have h2 := length_le_bestFold cs (updBest b (some c))
      simp only [bestFold] at h2
      simp only [bestFold, List.foldl_cons]
      omega
    · have := ih (updBest b (some c0)) c hmem
      simp only [bestFold, List.foldl_cons]
      exact this

theorem bestFold_eq_or_mem :
    ∀ (cs : List EmbeddedJpegInfo) (b : EmbeddedJpegInfo),
      bestFold b cs = b ∨ bestFold b cs ∈ cs := by
  intro cs
  induction cs with
  | nil => intro b; left; simp [bestFold]
  | cons c cs ih =>
    intro b
    have h1 : updBest b (some c) = c ∨ updBest b (some c) = b := by
      simp only [updBest]; split
      · left; rfl
      · right; rfl
    have h2 := ih (updBest b (some c))
    simp only [bestFold, List.foldl_cons] at h2 ⊢
    rcases h2 with h2 | h2
    · rcases h1 with h1 | h1
      · right; rw [h2, h1]; exact List.mem_cons_self c cs
      · left; rw [h2, h1]
    · right; exact List.mem_cons_of_mem c h2

theorem chainBest_eq_bestFold (buf : List Nat) (isLe : Bool) :
    ∀ (offs : List Nat) (b : EmbeddedJpegInfo),
      chainBest buf isLe offs b = bestFold b (offs.filterMap (candAt buf isLe)) := by
  intro offs
  induction offs with
  | nil => intro b; simp [chainBest, bestFold]
  | cons off offs ih =>
    intro b
    have hl : chainBest buf isLe (off :: offs) b
        = chainBest buf isLe offs (updBest b (candAt buf isLe off)) := by
      simp [chainBest, List.foldl_cons]
    rw [hl, ih]
    cases hc : candAt buf isLe off with
    | none => simp [List.filterMap_cons, hc, updBest]
    | some c => simp [List.filterMap_cons, hc, bestFold, List.foldl_cons]

theorem findLargest_eq (buf : List Nat) (isLe : Bool) (first fuel : Nat)
    (h1 : parseMagic buf = .inr isLe) (h2 : readU32 buf 4 isLe = some first) :
    findLargestEmbeddedJpeg buf fuel =
      match runWalk buf isLe fuel ⟨first, ⟨0, 0⟩⟩ with
      | .fuelOut => .fuelOut
      | .panicked => .failed .boundsPanic
      | .ok best => finalize buf best := by
  unfold findLargestEmbeddedJpeg
  simp only [h1, h2]

theorem finalize_found {buf : List Nat} {best info : EmbeddedJpegInfo}
    (h : finalize buf best = .found info) :
    info = best ∧ info.offset ≠ 0 ∧ info.length ≠ 0 ∧
      info.offset + info.length ≤ buf.length := by
  unfold finalize at h
  split at h
  · exact absurd h (by simp)
  split at h
  · exact absurd h (by simp)
  rename_i hz hb
  simp only [FindRes.found.injEq] at h
  subst h
  push_neg at hz
  exact ⟨rfl, hz.1, hz.2, by omega⟩

theorem found_via_walk {buf : List Nat} {fuel : Nat} {info : EmbeddedJpegInfo}
    (h : findLargestEmbeddedJpeg buf fuel = .found info) :
    ∃ (isLe : Bool) (first : Nat) (best : EmbeddedJpegInfo),
      parseMagic buf = .inr isLe ∧ readU32 buf 4 isLe = some first ∧
      runWalk buf isLe fuel ⟨first, ⟨0, 0⟩⟩ = .ok best ∧
      finalize buf best = .found info := by
  unfold findLargestEmbeddedJpeg at h
  cases hpm : parseMagic buf
  · simp [hpm] at h
  rename_i isLe
  simp only [hpm] at h
  cases h4 : readU32 buf 4 isLe
  · simp [h4] at h
  rename_i first
  simp only [h4] at h
  cases hw : runWalk buf isLe fuel ⟨first, ⟨0, 0⟩⟩
  case fuelOut => simp [hw] at h
  case panicked => simp [hw] at h
  rename_i best
  simp only [hw] at h
  exact ⟨isLe, first, best, rfl, h4, hw, h⟩

theorem found_bounds {buf : List Nat} {fuel : Nat} {info : EmbeddedJpegInfo}
    (h : findLargestEmbeddedJpeg buf fuel = .found info) :
    info.offset ≠ 0 ∧ info.length ≠ 0 ∧ info.offset + info.length ≤ buf.length := by
  obtain ⟨isLe, first, best, _, _, _, hfin⟩ := found_via_walk h
  exact (finalize_found hfin).2

theorem parseMagic_inl {buf : List Nat} {e : LocErr} (h : parseMagic buf = .inl e) :
    e = .boundsPanic ∨ e = .invalidContainer := by
  unfold parseMagic at h
  split_ifs at h <;>
    first
      | exact Or.inl (Sum.inl.inj h).symm
      | exact Or.inr (Sum.inl.inj h).symm

/-- Claim C10 (corrected): for buffers of at least 4 bytes whose first
four bytes match neither recognized TIFF magic sequence, the locator
fails with the structured InvalidContainer error.  The claim as
written also covers buffers shorter than 4 bytes, but those abort with
a bounds-check panic instead (see the counterexample). -/
theorem c10_invalid_magic (buf : List Nat) (fuel : Nat)
    (h4 : 4 ≤ buf.length)
    (hle : buf.take 4 ≠ tiffMagicLE) (hbe : buf.take 4 ≠ tiffMagicBE) :
    findLargestEmbeddedJpeg buf fuel = .failed .invalidContainer := by
  unfold findLargestEmbeddedJpeg parseMagic
  rw [if_neg (show ¬ buf.length < 4 by omega), if_neg hle, if_neg hbe]

/-- Claim C10 counterexample: a 1-byte buffer (necessarily shorter
than the magic) makes the locator abort with a bounds-check panic, not
with the structured InvalidContainer failure the claim asserts. -/
theorem c10_short_buffer_panics_cex :
    findLargestEmbeddedJpeg [73] 1 = .failed .boundsPanic ∧
    findLargestEmbeddedJpeg [73] 1 ≠ .failed .invalidContainer := by decide

/-- Claim C2 (corrected): the structured OutOfBounds failure arises
only after the chain walk has fully succeeded, from the final
offset-plus-length check; an offset read during traversal that lies
beyond the buffer instead aborts with a bounds-check panic (a checked
access, never an unchecked one — see the counterexample). -/
theorem c2_oob_only_from_final_check (buf : List Nat) (fuel : Nat)
    (h : findLargestEmbeddedJpeg buf fuel = .failed .outOfBounds) :
    ∃ (isLe : Bool) (first : Nat) (best : EmbeddedJpegInfo),
      parseMagic buf = .inr isLe ∧ readU32 buf 4 isLe = some first ∧
      runWalk buf isLe fuel ⟨first, ⟨0, 0⟩⟩ = .ok best ∧
      best.offset ≠ 0 ∧ best.length ≠ 0 ∧
      buf.length < best.offset + best.length := by
  unfold findLargestEmbeddedJpeg at h
  cases hpm : parseMagic buf
  case inl e =>
    simp only [hpm] at h
    rcases parseMagic_inl hpm with he | he <;> subst he <;>
      exact absurd h (by simp)
  rename_i isLe
  simp only [hpm] at h
  cases hr : readU32 buf 4 isLe
  · simp [hr] at h
  rename_i first
  simp only [hr] at h
  cases hw : runWalk buf isLe fuel ⟨first, ⟨0, 0⟩⟩
  case fuelOut => simp [hw] at h
  case panicked => simp [hw] at h
  rename_i best
  simp only [hw] at h
  unfold finalize at h
  by_cases hz : best.offset = 0 ∨ best.length = 0
  · rw [if_pos hz] at h
    exact absurd h (by simp)
  · rw [if_neg hz] at h
    by_cases hb : buf.length < best.offset + best.length
    · push_neg at hz
      exact ⟨isLe, first, best, rfl, hr, hw, hz.1, hz.2, hb⟩
    · rw [if_neg hb] at h
      exact absurd h (by simp)

/-- Claim C2 counterexample: a buffer whose first-IFD offset, 100,
lies beyond its 8 bytes aborts with a bounds-check panic rather than
returning the structured OutOfBounds failure the claim asserts. -/
theorem c2_traversal_oob_panics_cex :
    shortOffBuf.length < 100 ∧
    findLargestEmbeddedJpeg shortOffBuf 1 = .failed .boundsPanic ∧
    findLargestEmbeddedJpeg shortOffBuf 1 ≠ .failed .outOfBounds := by decide

/-- Claim C2 witness: a concrete buffer on which the amended statement
applies, with the structured OutOfBounds failure produced by the final
region check. -/
theorem c2_oob_witness :
    findLargestEmbeddedJpeg oobBuf 2 = .failed .outOfBounds ∧
    ∃ (isLe : Bool) (first : Nat) (best : EmbeddedJpegInfo),
      parseMagic oobBuf = .inr isLe ∧ readU32 oobBuf 4 isLe = some first ∧
      runWalk oobBuf isLe 2 ⟨first, ⟨0, 0⟩⟩ = .ok best ∧
      best.offset ≠ 0 ∧ best.length ≠ 0 ∧
      oobBuf.length < best.offset + best.length :=
  ⟨by decide, c2_oob_only_from_final_check oobBuf 2 (by decide)⟩

/-- Claim C5 (confirmed): when the chosen candidate declares a region
exceeding the buffer the locator fails with OutOfBounds, and every
slice the extraction returns lies entirely inside the buffer (its
bytes are exactly the declared in-bounds range). -/
theorem c5_bounds_checked (buf : List Nat) (best : EmbeddedJpegInfo)
    (hints : HintPlan) (fuel : Nat) :
    (best.offset ≠ 0 → best.length ≠ 0 →
      buf.length < best.offset + best.length →
      finalize buf best = .failed .outOfBounds)
    ∧ (∀ bytes, extractJpeg hints buf fuel = .ok bytes →
        ∃ info, findLargestEmbeddedJpeg buf fuel = .found info ∧
          info.offset + info.length ≤ buf.length ∧
          bytes = (buf.drop info.offset).take info.length) := by
  constructor
  · intro h1 h2 h3
    unfold finalize
    rw [if_neg (by push_neg; exact ⟨h1, h2⟩), if_pos h3]
  · intro bytes h
    unfold extractJpeg at h
    cases hf : findLargestEmbeddedJpeg buf fuel
    case failed e => simp [hf] at h
    case fuelOut => simp [hf] at h
    rename_i info
    simp only [hf] at h
    split_ifs at h
    refine ⟨info, rfl, (found_bounds hf).2.2, ?_⟩
    injection h with h2
    exact h2.symm

/-- Claim C5 witness: the first part applied to a candidate whose
declared region exceeds the buffer, the second to a successful
extraction from a concrete valid buffer. -/
theorem c5_bounds_witness :
    finalize oobBuf ⟨30, 50⟩ = .failed .outOfBounds ∧
    ∃ info, findLargestEmbeddedJpeg okBuf 2 = .found info ∧
      info.offset + info.length ≤ okBuf.length ∧
      [4, 0, 0, 0] = (okBuf.drop info.offset).take info.length :=
  ⟨(c5_bounds_checked oobBuf ⟨30, 50⟩ ⟨true, true, true⟩ 2).1
      (by decide) (by decide) (by decide),
   (c5_bounds_checked okBuf ⟨30, 50⟩ ⟨true, true, true⟩ 2).2
      [4, 0, 0, 0] (by decide)⟩

/-- Claim C7 (corrected): the code performs no start-of-image check at
all; whenever location succeeds and the advisory hints succeed, the
located slice is returned for writing regardless of its first two
bytes. -/
theorem c7_slice_returned_without_soi_check (buf : List Nat) (fuel : Nat)
    (info : EmbeddedJpegInfo)
    (h : findLargestEmbeddedJpeg buf fuel = .found info) :
    extractJpeg ⟨true, true, true⟩ buf fuel =
      .ok ((buf.drop info.offset).take info.length) := by
  unfold extractJpeg
  simp [h]

/-- Claim C7 counterexample: a file whose located byte range begins
with 4, 0 (not the SOI marker 255, 216) is extracted successfully
rather than rejected. -/
theorem c7_no_soi_check_cex :
    extractJpeg ⟨true, true, true⟩ okBuf 2 = .ok [4, 0, 0, 0] ∧
    [4, 0, 0, 0].take 2 ≠ [255, 216] := by decide

/-- Claim C7 witness: the amended statement applied to a concrete
buffer. -/
theorem c7_witness :
    findLargestEmbeddedJpeg okBuf 2 = .found ⟨30, 4⟩ ∧
    extractJpeg ⟨true, true, true⟩ okBuf 2 = .ok ((okBuf.drop 30).take 4) :=
  ⟨by decide, c7_slice_returned_without_soi_check okBuf 2 ⟨30, 4⟩ (by decide)⟩

/-- Claim C3 (corrected): advisory-hint failures ARE propagated as
the processing error of the file: each hint call in mmap_raw and
extract_jpeg uses error propagation, so a failing hint aborts the
file even when the JPEG was already successfully located. -/
theorem c3_hint_failure_propagates (f a : Bool) (hints : HintPlan)
    (buf : List Nat) (fuel : Nat) (info : EmbeddedJpegInfo) :
    ((f = false ∨ a = false) → mmapRaw f a = .error .hintFailure)
    ∧ (findLargestEmbeddedJpeg buf fuel = .found info →
        (hints.fadviseWillNeed = false ∨ hints.adviseWillNeed = false ∨
          hints.advisePopulate = false) →
        extractJpeg hints buf fuel = .err .hintFailure) := by
  constructor
  · intro h
    unfold mmapRaw
    rcases h with h | h <;> subst h
    · simp
    · cases f <;> simp
  · intro hf hh
    cases hints with
    | mk x y z =>
      unfold extractJpeg
      simp only [hf]
      cases x <;> cases y <;> cases z <;> simp_all

/-- Claim C3 counterexample: on the same valid buffer, extraction
succeeds when all hints succeed but fails when the first post-location
hint call fails, so the processing outcome is not the same as if the
hint had succeeded. -/
theorem c3_hint_failure_changes_outcome_cex :
    extractJpeg ⟨false, true, true⟩ okBuf 2 = .err .hintFailure ∧
    extractJpeg ⟨true, true, true⟩ okBuf 2 = .ok [4, 0, 0, 0] ∧
    ExtractRes.err .hintFailure ≠ ExtractRes.ok [4, 0, 0, 0] := by decide

/-- Claim C3 witness: the amended statement applied to concrete hint
outcomes and a concrete buffer. -/
theorem c3_hint_failure_witness :
    mmapRaw false true = .error .hintFailure ∧
    extractJpeg ⟨false, true, true⟩ okBuf 2 = .err .hintFailure :=
  ⟨(c3_hint_failure_propagates false true ⟨false, true, true⟩ okBuf 2 ⟨30, 4⟩).1
      (Or.inl rfl),
   (c3_hint_failure_propagates false true ⟨false, true, true⟩ okBuf 2 ⟨30, 4⟩).2
      (by decide) (Or.inl rfl)⟩

/-- Claim C10 witness: a 4-byte all-zero buffer has neither magic and
fails with InvalidContainer. -/
theorem c10_witness :
    findLargestEmbeddedJpeg [0, 0, 0, 0] 1 = .failed .invalidContainer :=
  c10_invalid_magic [0, 0, 0, 0] 1 (by decide) (by decide) (by decide)

/-- Claim C4 (corrected): when the chain walk completes with best
candidate best, the locator fails with NoJpegFound if and only if the
best candidate has offset 0 or length 0 — even when some IFD did
yield both tags (see the counterexample); when the best candidate has
nonzero offset and length and fits in the buffer, it is returned. -/
theorem c4_nojpeg_iff_degenerate_best (buf : List Nat) (isLe : Bool)
    (first fuel : Nat) (best : EmbeddedJpegInfo)
    (h1 : parseMagic buf = .inr isLe) (h2 : readU32 buf 4 isLe = some first)
    (h3 : runWalk buf isLe fuel ⟨first, ⟨0, 0⟩⟩ = .ok best) :
    (findLargestEmbeddedJpeg buf fuel = .failed .noJpegFound ↔
      (best.offset = 0 ∨ best.length = 0))
    ∧ (best.offset ≠ 0 → best.length ≠ 0 →
        best.offset + best.length ≤ buf.length →
        findLargestEmbeddedJpeg buf fuel = .found best) := by
  have he := findLargest_eq buf isLe first fuel h1 h2
  simp only [h3] at he
  constructor
  · rw [he]
    unfold finalize
    constructor
    · intro h
      by_contra hc
      push_neg at hc
      rw [if_neg (by push_neg; exact hc)] at h
      by_cases hb : buf.length < best.offset + best.length
      · rw [if_pos hb] at h
        exact absurd h (by simp)
      · rw [if_neg hb] at h
        exact absurd h (by simp)
    · intro h
      rw [if_pos h]
  · intro ha hb hc
    rw [he]
    unfold finalize
    rw [if_neg (by push_neg; exact ⟨ha, hb⟩), if_neg (by omega)]

/-- Claim C4 counterexample: a buffer whose single IFD yields both
JPEG tags, with captured offset 0 and length 5, still fails with
NoJpegFound instead of returning the candidate. -/
theorem c4_zero_offset_rejected_cex :
    candAt zeroOffBuf true 8 = some ⟨0, 5⟩ ∧
    findLargestEmbeddedJpeg zeroOffBuf 2 = .failed .noJpegFound := by decide

/-- Claim C4 witness: the amended statement applied to the concrete
buffer whose best candidate has offset 0. -/
theorem c4_nojpeg_witness :
    findLargestEmbeddedJpeg zeroOffBuf 2 = .failed .noJpegFound :=
  ((c4_nojpeg_iff_degenerate_best zeroOffBuf true 8 2 ⟨0, 5⟩
      (by decide) (by decide) (by decide)).1).mpr (Or.inl rfl)

/-- Claim C1 (confirmed): over any terminating chain walk, whenever
the locator succeeds its result is the captured candidate of one of
the visited IFDs, and its length is at least the length captured by
every IFD of the chain that yielded both tags — the maximum across
the whole chain regardless of position. -/
theorem c1_largest_across_chain (buf : List Nat) (isLe : Bool)
    (first fuel : Nat) (offs : List Nat) (info : EmbeddedJpegInfo)
    (h1 : parseMagic buf = .inr isLe) (h2 : readU32 buf 4 isLe = some first)
    (hchain : Chain buf isLe first offs) (hfuel : offs.length < fuel)
    (hfound : findLargestEmbeddedJpeg buf fuel = .found info) :
    info ∈ offs.filterMap (candAt buf isLe) ∧
    ∀ c ∈ offs.filterMap (candAt buf isLe), c.length ≤ info.length := by
  have hw := runWalk_chain hchain ⟨0, 0⟩ fuel hfuel
  have he := findLargest_eq buf isLe first fuel h1 h2
  simp only [hw] at he
  rw [he] at hfound
  obtain ⟨heq, hoz, hlz, hle⟩ := finalize_found hfound
  subst heq
  have hbf := chainBest_eq_bestFold buf isLe offs ⟨0, 0⟩
  constructor
  · rcases bestFold_eq_or_mem (offs.filterMap (candAt buf isLe)) ⟨0, 0⟩ with hh | hh
    · exfalso
      apply hlz
      rw [hbf, hh]
    · rw [hbf]
      exact hh
  · intro c hc
    rw [hbf]
    exact bestFold_mem_le _ ⟨0, 0⟩ c hc

/-- Claim C1 witness: two linked IFDs declaring JPEG lengths 3 and 6;
the locator returns the length-6 candidate from the second IFD, and
it dominates every candidate of the chain. -/
theorem c1_largest_witness :
    findLargestEmbeddedJpeg twoIfdBuf 3 = .found ⟨74, 6⟩ ∧
    (⟨74, 6⟩ : EmbeddedJpegInfo) ∈ [8, 40].filterMap (candAt twoIfdBuf true) ∧
    ∀ c ∈ [8, 40].filterMap (candAt twoIfdBuf true),
      c.length ≤ (⟨74, 6⟩ : EmbeddedJpegInfo).length := by
  have hchain : Chain twoIfdBuf true 8 [8, 40] :=
    @Chain.cons twoIfdBuf true 8 40 [40] (by decide) (by decide)
      (@Chain.cons twoIfdBuf true 40 0 [] (by decide) (by decide) Chain.nil)
  have h := c1_largest_across_chain twoIfdBuf true 8 3 [8, 40] ⟨74, 6⟩
    (by decide) (by decide) hchain (by decide) (by decide)
  exact ⟨by decide, h.1, h.2⟩

/-- Claim C6 (corrected): the chain walk terminates on every buffer
whose next-offset iteration reaches 0 (a finite, acyclic chain with
all traversal reads succeeding), but the source has no cycle
detection, and on a chain whose next pointer leads back to an earlier
IFD the loop never terminates (see the counterexample). -/
theorem c6_forward_chain_terminates (buf : List Nat) (isLe : Bool)
    (first fuel : Nat) (offs : List Nat)
    (h1 : parseMagic buf = .inr isLe) (h2 : readU32 buf 4 isLe = some first)
    (hchain : Chain buf isLe first offs) (hfuel : offs.length < fuel) :
    findLargestEmbeddedJpeg buf fuel ≠ .fuelOut := by
  have hw := runWalk_chain hchain ⟨0, 0⟩ fuel hfuel
  have he := findLargest_eq buf isLe first fuel h1 h2
  simp only [hw] at he
  rw [he]
  unfold finalize
  split_ifs <;> simp

theorem runWalk_cyclic (fuel : Nat) :
    ∀ (b : EmbeddedJpegInfo), runWalk cyclicBuf true fuel ⟨8, b⟩ = .fuelOut := by
  induction fuel with
  | zero => intro b; rfl
  | succ n ih =>
    intro b
    have hws : walkStep cyclicBuf true ⟨8, b⟩ = .cont ⟨8, b⟩ := rfl
    simp only [runWalk, hws]
    exact ih b

/-- Claim C6 counterexample: a buffer whose IFD chain points back to
itself makes the while loop run forever — no fuel bound ever
completes it, so the walk does not terminate on cyclic chains. -/
theorem c6_cycle_diverges_cex : Diverges cyclicBuf := by
  intro fuel
  have h1 : parseMagic cyclicBuf = .inr true := by decide
  have h2 : readU32 cyclicBuf 4 true = some 8 := by decide
  unfold findLargestEmbeddedJpeg
  simp only [h1, h2, runWalk_cyclic]

/-- Claim C6 witness: on a concrete single-IFD buffer whose chain
reaches 0 the walk terminates. -/
theorem c6_termination_witness : findLargestEmbeddedJpeg okBuf 2 ≠ .fuelOut :=
  c6_forward_chain_terminates okBuf true 8 2 [8] (by decide) (by decide)
    (@Chain.cons okBuf true 8 0 [] (by decide) (by decide) Chain.nil) (by decide)

/-- Claim C8 (corrected): within one IFD, entry scanning stops as soon
as both tags are captured — the result depends only on the entries up
to the completing one — but the captured value of each tag is the one
from its LAST occurrence among the scanned entries, not its first
(tag writes overwrite; see the counterexample). -/
theorem c8_last_occurrence_and_early_stop (buf : List Nat) (isLe : Bool)
    (n e k : Nat) (es : List (Nat × Nat))
    (h1 : readEntries buf isLe n e = some es)
    (h2 : k < es.length)
    (h3 : completeAfter (es.take (k+1)) none none = true)
    (h4 : completeAfter (es.take k) none none = false) :
    scanEntries buf isLe n e none none =
      .ok (lastVal 0x201 (es.take (k+1)), lastVal 0x202 (es.take (k+1))) := by
  rw [scanEntries_eq_scanList none none h1]
  rw [scanList_complete es k none none (by rfl) h2 h3 h4]
  rw [foldAcc_pair]
  rfl

/-- Claim C8 counterexample: an IFD carrying tag 0x201 twice (values
10 then 20) before tag 0x202 captures the SECOND occurrence, 20 —
not the first occurrence 10 that the claim asserts. -/
theorem c8_first_occurrence_cex :
    readEntries dupBuf true 3 0 = some [(513, 10), (513, 20), (514, 5)] ∧
    scanEntries dupBuf true 3 0 none none = .ok (some 20, some 5) ∧
    scanEntries dupBuf true 3 0 none none ≠ .ok (some 10, some 5) := by
  refine ⟨by decide, rfl, ?_⟩
  intro h
  rw [show scanEntries dupBuf true 3 0 none none
      = .ok ((some 20 : Option Nat), (some 5 : Option Nat)) from rfl] at h
  injection h with h2
  simp at h2

/-- Claim C8 witness: the amended statement applied to the concrete
duplicated-tag IFD, completing at the third entry. -/
theorem c8_witness :
    readEntries dupBuf true 3 0 = some [(513, 10), (513, 20), (514, 5)] ∧
    scanEntries dupBuf true 3 0 none none =
      .ok (lastVal 0x201 ([(513, 10), (513, 20), (514, 5)].take 3),
           lastVal 0x202 ([(513, 10), (513, 20), (514, 5)].take 3)) :=
  ⟨by decide,
   c8_last_occurrence_and_early_stop dupBuf true 3 0 2
     [(513, 10), (513, 20), (514, 5)]
     (by decide) (by decide) (by decide) (by decide)⟩

/-- Claim C9 (corrected): an extension is selected if and only if it
is exactly a default extension (all lowercase), exactly the uppercased
form of a default extension, or exactly the caller-supplied extension;
matching is by exact equality, not case-insensitive (see the
counterexample for a mixed-case variant). -/
theorem c9_selected_iff_exact_variant (extra : Option (List Char)) (e : List Char) :
    extensionSelected extra (some e) = true ↔
      (e ∈ defaultExtensions ∨ e ∈ defaultExtensions.map upperExt ∨
        extra = some e) := by
  unfold extensionSelected validExtensions
  rw [List.elem_iff]
  simp only [List.mem_append, List.mem_flatMap, List.mem_map]
  constructor
  · rintro (⟨a, ha, hm⟩ | hm)
    · simp only [List.mem_cons, List.not_mem_nil, or_false] at hm
      rcases hm with hm | hm
      · subst hm; exact Or.inl ha
      · subst hm; exact Or.inr (Or.inl ⟨a, ha, rfl⟩)
    · right; right
      rcases extra with _ | x
      · simp at hm
      · simp only [Option.toList_some, List.mem_singleton] at hm
        subst hm; rfl
  · rintro (hm | ⟨a, ha, hm⟩ | hm)
    · exact Or.inl ⟨e, hm, by simp⟩
    · exact Or.inl ⟨a, ha, by simp [hm]⟩
    · right
      subst hm
      simp

/-- Claim C9 counterexample: the mixed-case variant of a default
extension is a case variant of a selected extension (its lowercasing
is the default arw) yet it is not selected, while the all-lowercase
and all-uppercase forms are. -/
theorem c9_mixed_case_cex :
    ['A','r','w'].map Char.toLower = ['a','r','w'] ∧
    ['a','r','w'] ∈ defaultExtensions ∧
    extensionSelected none (some ['A','r','w']) = false ∧
    extensionSelected none (some ['a','r','w']) = true ∧
    extensionSelected none (some ['A','R','W']) = true := by decide

end ArwToJpg
